import Mathlib

/-!
Verification of the transformation / orchestration / loading core of the
books-pricing ETL pipeline (scripts/transform_data.py, scripts/load_data.py,
scripts/fetch_exchange_rate.py, dags/product_pricing_dag.py).

Python strings are modelled as sequences of Unicode code points
(`PyStr := List Nat`), matching Python's own data model for `str`.
Prices and exchange rates are modelled as exact rationals (the spec's
"decimal"); `round(x, 2)` is modelled as round-half-to-even on the exact
value.  Database effects are modelled by explicit state passing with
boolean fault-injection flags for connectivity / statement failures.
-/

namespace Pipeline

/-- A Python string: a sequence of Unicode code points. -/
abbrev PyStr := List Nat

/-- Code points of a Lean string literal, for writing concrete Python strings. -/
def str (s : String) : PyStr := s.data.map Char.toNat

/-- The code points Python's whitespace handling (regex class backslash-s and
str.strip) recognises: ASCII whitespace plus the Unicode space separators. -/
def pyWsB (c : Nat) : Bool :=
  c == 9 || c == 10 || c == 11 || c == 12 || c == 13 ||
  c == 28 || c == 29 || c == 30 || c == 31 || c == 32 ||
  c == 133 || c == 160 || c == 5760 ||
  (8192 ≤ c && c ≤ 8202) ||
  c == 8232 || c == 8233 || c == 8239 || c == 8287 || c == 12288

/-- One pass of re.sub with pattern backslash-s-plus and replacement a single
space: each maximal whitespace run becomes one space (code point 32).  The
flag records whether the previous character was whitespace (i.e. whether the
current run has already emitted its space). -/
def collapseAux : Bool → PyStr → PyStr
  | _, [] => []
  | prevWs, c :: cs =>
    if pyWsB c then
      if prevWs then collapseAux true cs else 32 :: collapseAux true cs
    else c :: collapseAux false cs

/-- re.sub of a whitespace run to a single space, over the whole string. -/
def collapseWs (l : PyStr) : PyStr := collapseAux false l

/-- str.strip of leading whitespace. -/
def stripL (l : PyStr) : PyStr := l.dropWhile pyWsB

/-- str.strip of trailing whitespace. -/
def stripR (l : PyStr) : PyStr := ((l.reverse).dropWhile pyWsB).reverse

/-- str.strip: drop leading and trailing whitespace. -/
def stripWs (l : PyStr) : PyStr := stripR (stripL l)

/-- clean_text (transform_data.py): empty/falsy input yields the empty string;
otherwise collapse internal whitespace runs to single spaces and strip. -/
def clean_text (text : PyStr) : PyStr :=
  if text = [] then [] else stripWs (collapseWs text)

/-- ASCII lower-casing of a code point (str.lower restricted to ASCII, which
covers every category and status string this pipeline handles). -/
def asciiLower (c : Nat) : Nat := if 65 ≤ c && c ≤ 90 then c + 32 else c

/-- ASCII upper-casing of a code point. -/
def asciiUpper (c : Nat) : Nat := if 97 ≤ c && c ≤ 122 then c - 32 else c

/-- ASCII letter test (the "cased" characters of this pipeline's data). -/
def isAlphaCp (c : Nat) : Bool := (65 ≤ c && c ≤ 90) || (97 ≤ c && c ≤ 122)

/-- str.lower over a string (ASCII model). -/
def pyLower (l : PyStr) : PyStr := l.map asciiLower

/-- One character of str.title: upper-case a letter that starts a word
(previous character not a letter), lower-case any other letter. -/
def titleChar (prevAlpha : Bool) (c : Nat) : Nat :=
  if isAlphaCp c then (if prevAlpha then asciiLower c else asciiUpper c) else c

/-- str.title, threading the "previous character was a letter" flag. -/
def titleAux : Bool → PyStr → PyStr
  | _, [] => []
  | prevAlpha, c :: cs => titleChar prevAlpha c :: titleAux (isAlphaCp c) cs

/-- str.title over a string (ASCII model). -/
def pyTitle (l : PyStr) : PyStr := titleAux false l

/-- normalize_category (transform_data.py): empty or case-insensitively
"unknown" input yields the sentinel "Uncategorized"; otherwise clean the text
and convert it to title case. -/
def normalize_category (category : PyStr) : PyStr :=
  if category = [] ∨ pyLower category = str "unknown" then str "Uncategorized"
  else pyTitle (clean_text category)

/-- ASCII digit test (regex class backslash-d, ASCII model). -/
def isDigitCp (c : Nat) : Bool := 48 ≤ c && c ≤ 57

/-- Numeric value of a digit string (most significant first). -/
def digitsVal (l : PyStr) : Nat := l.foldl (fun a d => 10 * a + (d - 48)) 0

/-- Attempt to match the regex "(digits+ ws+ available)" at the start of the
string, returning the captured quantity.  The character classes are disjoint
from the literals that follow them, so maximal munch is exact. -/
def matchQtyAt : PyStr → Option Nat
  | 40 :: rest =>
    let ds := rest.takeWhile isDigitCp
    let r2 := rest.dropWhile isDigitCp
    if ds = [] then Option.none
    else
      let sp := r2.takeWhile pyWsB
      let r3 := r2.dropWhile pyWsB
      if sp = [] then Option.none
      else if r3.take 10 = str "available)" then some (digitsVal ds) else Option.none
  | _ => Option.none

/-- re.search for the quantity pattern: try each position left to right. -/
def searchQty : PyStr → Option Nat
  | [] => Option.none
  | c :: cs =>
    match matchQtyAt (c :: cs) with
    | some n => some n
    | Option.none => searchQty cs

/-- Substring containment (the Python "in" operator on strings). -/
def strContains (hay needle : PyStr) : Bool :=
  (List.range (hay.length + 1)).any (fun i => (hay.drop i).take needle.length == needle)

/-- parse_availability (transform_data.py): falsy input yields
("Unknown", None); otherwise clean the text, extract an optional quantity
matching "(digits available)", and classify the status by case-insensitive
substring match, checking "in stock" before "out of stock". -/
def parse_availability (availability : PyStr) : PyStr × Option Nat :=
  if availability = [] then (str "Unknown", Option.none)
  else
    let a := clean_text availability
    let quantity := searchQty a
    let low := pyLower a
    let status :=
      if strContains low (str "in stock") then str "In Stock"
      else if strContains low (str "out of stock") then str "Out of Stock"
      else str "Unknown"
    (status, quantity)

/-- Python round-half-to-even of a rational to an integer. -/
def roundHalfEven (q : ℚ) : ℤ :=
  if q - (⌊q⌋ : ℚ) < 1 / 2 then ⌊q⌋
  else if 1 / 2 < q - (⌊q⌋ : ℚ) then ⌊q⌋ + 1
  else if ⌊q⌋ % 2 = 0 then ⌊q⌋ else ⌊q⌋ + 1

/-- Python round(x, 2) on the exact value: scale by 100, round half to even,
scale back. -/
def pyRound2 (q : ℚ) : ℚ := (roundHalfEven (q * 100) : ℚ) / 100

/-- convert_price_to_inr (transform_data.py): a falsy (zero) price or rate
yields 0.0; otherwise the product rounded to two decimal places. -/
def convert_price_to_inr (price_gbp exchange_rate : ℚ) : ℚ :=
  if price_gbp = 0 ∨ exchange_rate = 0 then 0
  else pyRound2 (price_gbp * exchange_rate)

/-- derive_price_tier (transform_data.py): cheap under 20, moderate from 20
up to (excluding) 50, expensive from 50. -/
def derive_price_tier (price_gbp : ℚ) : PyStr :=
  if price_gbp < 20 then str "cheap"
  else if price_gbp < 50 then str "moderate"
  else str "expensive"

/-! ### Canonical decimal rendering of a price (Python str on a float value)

transform_data.py interpolates the raw numeric price into the hashed string
with an f-string.  Python renders a float as its shortest decimal form;
for the terminating decimals this pipeline handles that is the canonical
decimal expansion with no trailing zeros (and a ".0" for integral values).
`decExp` finds an exponent k with den dividing 10^k; searching k upward
gives the minimal such exponent, hence no trailing-zero variance. -/

/-- Smallest k (bounded by den, which suffices) with den dividing 10^k. -/
def decExp (den : Nat) : Option Nat :=
  (List.range (den + 1)).find? (fun k => decide (den ∣ 10 ^ k))

/-- Decimal digit string of a natural number (code points, most significant
first). -/
def natDigits (n : Nat) : PyStr :=
  if h : n < 10 then [48 + n] else natDigits (n / 10) ++ [48 + n % 10]
termination_by n
decreasing_by exact Nat.div_lt_self (by omega) (by omega)

/-- Digit string of n padded with leading zeros to width k. -/
def natDigitsPad (n k : Nat) : PyStr :=
  List.replicate (k - (natDigits n).length) 48 ++ natDigits n

/-- Python str() of the float value q, for q a terminating decimal: optional
minus sign, integer part, a dot, and the minimal fractional expansion (".0"
when q is integral).  A rational that is not a terminating decimal is not a
float value; it is rendered as num/den so that the function stays total and
injective. -/
def pyFloatRepr (q : ℚ) : PyStr :=
  let sign : PyStr := if q < 0 then [45] else []
  match decExp q.den with
  | some k =>
    if k = 0 then sign ++ natDigits q.num.natAbs ++ [46, 48]
    else
      let scaled := q.num.natAbs * 10 ^ k / q.den
      sign ++ natDigits (scaled / 10 ^ k) ++ [46] ++ natDigitsPad (scaled % 10 ^ k) k
  | Option.none => sign ++ natDigits q.num.natAbs ++ [47] ++ natDigits q.den

/-! ### SHA-256 (FIPS 180-4), over naturals reduced mod 2^32

hashlib.sha256 as called by generate_product_id.  A message is a list of
bytes (naturals below 256); words are naturals kept below 2^32 by explicit
reduction. -/

/-- The 64 SHA-256 round constants. -/
def sha256K : List Nat :=
  [1116352408, 1899447441, 3049323471, 3921009573, 961987163,
   1508970993, 2453635748, 2870763221, 3624381080, 310598401,
   607225278, 1426881987, 1925078388, 2162078206, 2614888103,
   3248222580, 3835390401, 4022224774, 264347078, 604807628,
   770255983, 1249150122, 1555081692, 1996064986, 2554220882,
   2821834349, 2952996808, 3210313671, 3336571891, 3584528711,
   113926993, 338241895, 666307205, 773529912, 1294757372,
   1396182291, 1695183700, 1986661051, 2177026350, 2456956037,
   2730485921, 2820302411, 3259730800, 3345764771, 3516065817,
   3600352804, 4094571909, 275423344, 430227734, 506948616,
   659060556, 883997877, 958139571, 1322822218, 1537002063,
   1747873779, 1955562222, 2024104815, 2227730452, 2361852424,
   2428436474, 2756734187, 3204031479, 3329325298]

/-- The eight SHA-256 initial hash values. -/
def sha256H0 : List Nat :=
  [1779033703, 3144134277, 1013904242, 2773480762,
   1359893119, 2600822924, 528734635, 1541459225]

/-- Right rotation of a 32-bit word (input assumed below 2^32). -/
def rotr32 (n x : Nat) : Nat := x / 2 ^ n + x % 2 ^ n * 2 ^ (32 - n)

/-- Bitwise complement within 32 bits. -/
def bnot32 (x : Nat) : Nat := 2 ^ 32 - 1 - x % 2 ^ 32

/-- SHA-256 Ch function. -/
def shaCh (x y z : Nat) : Nat := (x &&& y) ^^^ (bnot32 x &&& z)

/-- SHA-256 Maj function. -/
def shaMaj (x y z : Nat) : Nat := (x &&& y) ^^^ (x &&& z) ^^^ (y &&& z)

/-- SHA-256 big sigma 0. -/
def bsig0 (x : Nat) : Nat := rotr32 2 x ^^^ rotr32 13 x ^^^ rotr32 22 x

/-- SHA-256 big sigma 1. -/
def bsig1 (x : Nat) : Nat := rotr32 6 x ^^^ rotr32 11 x ^^^ rotr32 25 x

/-- SHA-256 small sigma 0. -/
def ssig0 (x : Nat) : Nat := rotr32 7 x ^^^ rotr32 18 x ^^^ x / 2 ^ 3

/-- SHA-256 small sigma 1. -/
def ssig1 (x : Nat) : Nat := rotr32 17 x ^^^ rotr32 19 x ^^^ x / 2 ^ 10

/-- Big-endian 8-byte encoding of a 64-bit value. -/
def be64 (n : Nat) : List Nat :=
  [n / 2 ^ 56 % 256, n / 2 ^ 48 % 256, n / 2 ^ 40 % 256, n / 2 ^ 32 % 256,
   n / 2 ^ 24 % 256, n / 2 ^ 16 % 256, n / 2 ^ 8 % 256, n % 256]

/-- SHA-256 padding: append 0x80, zero bytes to 56 mod 64, then the 64-bit
big-endian bit length. -/
def sha256Pad (msg : List Nat) : List Nat :=
  msg ++ 0x80 :: List.replicate ((120 - (msg.length + 1) % 64) % 64) 0 ++
    be64 (8 * msg.length % 2 ^ 64)

/-- Big-endian 32-bit words from a byte list. -/
def bytesToWords : List Nat → List Nat
  | b0 :: b1 :: b2 :: b3 :: rest =>
    (b0 * 2 ^ 24 + b1 * 2 ^ 16 + b2 * 2 ^ 8 + b3) :: bytesToWords rest
  | _ => []

/-- Split a byte list into 64-byte blocks. -/
def toBlocks (l : List Nat) : List (List Nat) :=
  if h : l = [] then [] else l.take 64 :: toBlocks (l.drop 64)
termination_by l.length
decreasing_by
  have hl : 0 < l.length := List.length_pos.mpr h
  simp only [List.length_drop]
  omega

/-- Append the next word of the message schedule. -/
def scheduleStep (w : List Nat) : List Nat :=
  w ++ [(ssig1 (w.getD (w.length - 2) 0) + w.getD (w.length - 7) 0 +
         ssig0 (w.getD (w.length - 15) 0) + w.getD (w.length - 16) 0) % 2 ^ 32]

/-- Iterate the schedule extension. -/
def extendW : Nat → List Nat → List Nat
  | 0, w => w
  | k + 1, w => extendW k (scheduleStep w)

/-- The eight working variables of the compression loop. -/
structure SVars where
  a : Nat
  b : Nat
  c : Nat
  d : Nat
  e : Nat
  f : Nat
  g : Nat
  h : Nat

/-- One round of the SHA-256 compression loop. -/
def shaRound (s : SVars) (kw : Nat × Nat) : SVars :=
  let t1 := (s.h + bsig1 s.e + shaCh s.e s.f s.g + kw.1 + kw.2) % 2 ^ 32
  let t2 := (bsig0 s.a + shaMaj s.a s.b s.c) % 2 ^ 32
  ⟨(t1 + t2) % 2 ^ 32, s.a, s.b, s.c, (s.d + t1) % 2 ^ 32, s.e, s.f, s.g⟩

/-- Process one 64-byte block, updating the eight-word state. -/
def sha256Compress (st : List Nat) (block : List Nat) : List Nat :=
  let w := extendW 48 (bytesToWords block)
  let i : SVars := ⟨st.getD 0 0, st.getD 1 0, st.getD 2 0, st.getD 3 0,
                    st.getD 4 0, st.getD 5 0, st.getD 6 0, st.getD 7 0⟩
  let z := (sha256K.zip w).foldl shaRound i
  [(st.getD 0 0 + z.a) % 2 ^ 32, (st.getD 1 0 + z.b) % 2 ^ 32,
   (st.getD 2 0 + z.c) % 2 ^ 32, (st.getD 3 0 + z.d) % 2 ^ 32,
   (st.getD 4 0 + z.e) % 2 ^ 32, (st.getD 5 0 + z.f) % 2 ^ 32,
   (st.getD 6 0 + z.g) % 2 ^ 32, (st.getD 7 0 + z.h) % 2 ^ 32]

/-- The eight 32-bit words of the SHA-256 digest of a byte list. -/
def sha256Words (msg : List Nat) : List Nat :=
  (toBlocks (sha256Pad msg)).foldl sha256Compress sha256H0

/-- The SHA-256 digest as a single 256-bit natural (big-endian word order). -/
def sha256Nat (msg : List Nat) : Nat :=
  (sha256Words msg).foldl (fun acc w => acc * 2 ^ 32 + w % 2 ^ 32) 0

/-- Lower-case hex digit for a value below 16. -/
def hexDigitCp (n : Nat) : Nat := if n < 10 then 48 + n else 87 + n

/-- Fixed-width lower-case hex string of a natural (most significant first). -/
def natToHex (width n : Nat) : PyStr :=
  (List.range width).map (fun i => hexDigitCp (n / 16 ^ (width - 1 - i) % 16))

/-- UTF-8 encoding of one code point. -/
def utf8EncodeCp (n : Nat) : List Nat :=
  if n < 0x80 then [n]
  else if n < 0x800 then [0xC0 + n / 0x40, 0x80 + n % 0x40]
  else if n < 0x10000 then
    [0xE0 + n / 0x1000, 0x80 + n / 0x40 % 0x40, 0x80 + n % 0x40]
  else
    [0xF0 + n / 0x40000, 0x80 + n / 0x1000 % 0x40, 0x80 + n / 0x40 % 0x40, 0x80 + n % 0x40]

/-- str.encode of a Python string: UTF-8 bytes of its code points. -/
def utf8Encode (s : PyStr) : List Nat := (s.map utf8EncodeCp).flatten

/-- The f-string "title|category|price" hashed by generate_product_id. -/
def hashInput (title category : PyStr) (price_gbp : ℚ) : PyStr :=
  title ++ [124] ++ category ++ [124] ++ pyFloatRepr price_gbp

/-- generate_product_id (transform_data.py): the hex-encoded SHA-256 digest of
the UTF-8 bytes of "title|category|price". -/
def generate_product_id (title category : PyStr) (price_gbp : ℚ) : PyStr :=
  natToHex 64 (sha256Nat (utf8Encode (hashInput title category price_gbp)))

/-! ### Raw records, enrichment, and the batch transformer -/

/-- A Python value that can sit in the price_gbp slot of a raw product dict:
the scraper produces a float, but the dict is untyped (None, or a string,
can arrive through serialization). -/
inductive PyVal where
  | none : PyVal
  | pstr : PyStr → PyVal
  | num : ℚ → PyVal
deriving DecidableEq

/-- Python float(s) on a string: optional surrounding whitespace, an optional
sign, and digits with an optional fractional part.  (Exponents, inf and nan
are accepted by Python but never reach this pipeline and are not modelled.)
The value is built with mkRat so it is kernel-computable. -/
def parseFloatString (s : PyStr) : Option ℚ :=
  let cs := stripWs s
  let neg := cs.take 1 = [45]
  let cs2 := if cs.take 1 = [45] ∨ cs.take 1 = [43] then cs.drop 1 else cs
  let ip := cs2.takeWhile isDigitCp
  let r1 := cs2.dropWhile isDigitCp
  let sgn : ℤ := if neg then -1 else 1
  match r1 with
  | [] =>
    if ip = [] then Option.none
    else some (mkRat (sgn * digitsVal ip) 1)
  | 46 :: fr =>
    let fp := fr.takeWhile isDigitCp
    let r2 := fr.dropWhile isDigitCp
    if r2 ≠ [] then Option.none
    else if ip = [] ∧ fp = [] then Option.none
    else some (mkRat (sgn * (digitsVal ip * 10 ^ fp.length + digitsVal fp)) (10 ^ fp.length))
  | _ => Option.none

/-- Python float(v) on a raw dict value: numbers pass through, strings are
parsed, None (and anything unparseable) raises, modelled as failure. -/
def pyFloat : PyVal → Option ℚ
  | PyVal.num q => some q
  | PyVal.pstr s => parseFloatString s
  | PyVal.none => Option.none

/-- A raw scraped product record.  Absent dict keys are modelled by the
defaults the code supplies in product.get: empty strings and a zero price. -/
structure RawProduct where
  title : PyStr := []
  category : PyStr := []
  availability : PyStr := []
  price_gbp : PyVal := PyVal.num 0
deriving DecidableEq

/-- A transformed (enriched) product record as built by transform_product. -/
structure EnrichedProduct where
  product_id : PyStr
  title : PyStr
  price_gbp : ℚ
  price_inr : ℚ
  category : PyStr
  availability_status : PyStr
  stock_quantity : Option Nat
  price_tier : PyStr
deriving DecidableEq

/-- transform_product (transform_data.py): clean the title, normalize the
category, parse availability, then parse the price with float(); any failure
there (the only fallible step) is caught and the record is dropped by
returning None; otherwise the enriched record is assembled. -/
def transform_product (product : RawProduct) (exchange_rate : ℚ) :
    Option EnrichedProduct :=
  let title := clean_text product.title
  let category := normalize_category product.category
  let sq := parse_availability product.availability
  match pyFloat product.price_gbp with
  | Option.none => Option.none
  | some price_gbp =>
    some
      { product_id := generate_product_id title category price_gbp
        title := title
        price_gbp := price_gbp
        price_inr := convert_price_to_inr price_gbp exchange_rate
        category := category
        availability_status := sq.1
        stock_quantity := sq.2
        price_tier := derive_price_tier price_gbp }

/-- transform_products (transform_data.py): enrich each record independently,
keeping the successes in order and dropping the failures. -/
def transform_products (products : List RawProduct) (exchange_rate : ℚ) :
    List EnrichedProduct :=
  products.filterMap (fun p => transform_product p exchange_rate)

/-! ### Rate Store (staging_exchange_rates) and the transform task -/

/-- A row of the staging_exchange_rates table (single currency pair; the date
is modelled as a natural day number). -/
structure RateRow where
  rdate : Nat
  rate : ℚ
deriving DecidableEq

/-- The row with the greatest date (ORDER BY date DESC LIMIT 1; ties are
resolved in favour of the earliest stored row, the store's uniqueness
invariant makes ties impossible anyway). -/
def latestRow (store : List RateRow) : Option RateRow :=
  store.foldl
    (fun acc row =>
      match acc with
      | Option.none => some row
      | some best => if best.rdate < row.rdate then some row else some best)
    Option.none

/-- get_latest_exchange_rate (fetch_exchange_rate.py): the rate of the most
recent staging row, None when the table is empty or the database cannot be
reached (dbOk models connectivity). -/
def get_latest_exchange_rate (dbOk : Bool) (store : List RateRow) : Option ℚ :=
  if dbOk then (latestRow store).map RateRow.rate else Option.none

/-- Python truthiness of an optional rate: None and 0.0 are falsy. -/
def truthyRate : Option ℚ → Bool
  | Option.none => false
  | some r => r != 0

/-- The rate resolution of transform_products_task (product_pricing_dag.py):
take the staging-table rate; if that is falsy fall back to the XCom rate from
the fetch task; if that is still falsy there is no rate. -/
def resolveRate (storeRate xcomRate : Option ℚ) : Option ℚ :=
  let r1 := if truthyRate storeRate then storeRate else xcomRate
  if truthyRate r1 then r1 else Option.none

/-- The failure modes of the transform task (each raised as a ValueError in
the DAG): no raw products in XCom, no exchange rate from either source, or
an empty transformation result. -/
inductive TaskError where
  | noRawProducts : TaskError
  | noRateAvailable : TaskError
  | emptyResult : TaskError
deriving DecidableEq

/-- The outcome of the transform task: the transformed batch, or an error. -/
inductive TaskResult where
  | ok : List EnrichedProduct → TaskResult
  | err : TaskError → TaskResult
deriving DecidableEq

/-- transform_products_task (product_pricing_dag.py): fail on an empty raw
batch; resolve the rate from the staging table first, falling back to the
XCom value; fail when neither is available; transform; fail when nothing
survives. -/
def transform_products_task (raw : List RawProduct) (dbOk : Bool)
    (store : List RateRow) (xcomRate : Option ℚ) : TaskResult :=
  if raw = [] then TaskResult.err TaskError.noRawProducts
  else
    match resolveRate (get_latest_exchange_rate dbOk store) xcomRate with
    | Option.none => TaskResult.err TaskError.noRateAvailable
    | some rate =>
      let ts := transform_products raw rate
      if ts = [] then TaskResult.err TaskError.emptyResult else TaskResult.ok ts

/-! ### Loader (load_data.py, REPLACE strategy)

The products table is a list of enriched rows.  Two fault-injection flags
drive the error paths of load_products_replace: connOk is whether
psycopg2.connect succeeds, execOk is whether the statements
(TRUNCATE / INSERT / COMMIT) succeed once connected.  All SQL work happens
in one transaction: a statement failure is caught, rolled back and reported
by returning False.  A connection failure, however, reaches the except and
finally blocks with the local variables conn and cursor unbound, so the
handler itself raises UnboundLocalError and the function ends with an
uncontrolled exception instead of returning False. -/

/-- The destination products table. -/
structure ProductsDB where
  rows : List EnrichedProduct
deriving DecidableEq

/-- How a call to load_products_replace terminates: returning True, returning
False (handled psycopg2 error, transaction rolled back), or escaping with an
exception the function failed to handle (UnboundLocalError). -/
inductive LoadOutcome where
  | ok : LoadOutcome
  | failed : LoadOutcome
  | uncaught : LoadOutcome
deriving DecidableEq

/-- load_products_replace (load_data.py): connect, TRUNCATE products, bulk
INSERT the batch, COMMIT.  On statement failure the transaction is rolled
back and False is returned, leaving the prior rows intact; on connection
failure nothing was written but the except/finally blocks blow up on the
unbound conn/cursor locals, so the call raises instead of returning. -/
def load_products_replace (products : List EnrichedProduct)
    (connOk execOk : Bool) (db : ProductsDB) : LoadOutcome × ProductsDB :=
  if !connOk then (LoadOutcome.uncaught, db)
  else if !execOk then (LoadOutcome.failed, db)
  else (LoadOutcome.ok, ⟨products⟩)

/-! ### Concrete records used by the claims -/

/-- The sample product of the transform_data.py demo block. -/
def sampleRaw : RawProduct :=
  { title := str "  A Light in the Attic  "
    category := str "poetry"
    availability := str "In stock (22 available)"
    price_gbp := PyVal.num (mkRat 5177 100) }

/-- A raw record whose price cannot be parsed as a number at all. -/
def badRaw : RawProduct :=
  { title := str "Broken"
    category := str "fiction"
    availability := str "In stock"
    price_gbp := PyVal.pstr (str "not a number") }

/-- A raw record whose price parses as a negative number. -/
def negRaw : RawProduct :=
  { title := str "Negative"
    category := str "fiction"
    availability := str "In stock"
    price_gbp := PyVal.pstr (str "-5.0") }

/-- The left inverse of pyFloatRepr: read the sign, split the digit groups at
the dot (or the slash of the non-decimal marker), and rebuild the rational. -/
def parseDecRepr (s : PyStr) : ℚ :=
  let sgn : ℤ := if s.take 1 = [45] then -1 else 1
  let cs := if s.take 1 = [45] then s.drop 1 else s
  let ip := cs.takeWhile isDigitCp
  let rest := cs.dropWhile isDigitCp
  match rest with
  | 46 :: fr => mkRat (sgn * (digitsVal ip * 10 ^ fr.length + digitsVal fr)) (10 ^ fr.length)
  | 47 :: dn => mkRat (sgn * digitsVal ip) (digitsVal dn)
  | _ => 0

/-- The value computed by parseDecRepr once the sign is stripped. -/
def coreVal (sgn : ℤ) (core : PyStr) : ℚ :=
  match core.dropWhile isDigitCp with
  | 46 :: fr =>
    mkRat (sgn * (digitsVal (core.takeWhile isDigitCp) * 10 ^ fr.length + digitsVal fr))
      (10 ^ fr.length)
  | 47 :: dn => mkRat (sgn * digitsVal (core.takeWhile isDigitCp)) (digitsVal dn)
  | _ => 0

/-- The digit-led part of pyFloatRepr, after the optional sign. -/
def reprCore (q : ℚ) : PyStr :=
  match decExp q.den with
  | some k =>
    if k = 0 then natDigits q.num.natAbs ++ [46, 48]
    else
      natDigits (q.num.natAbs * 10 ^ k / q.den / 10 ^ k) ++ [46] ++
        natDigitsPad (q.num.natAbs * 10 ^ k / q.den % 10 ^ k) k
  | Option.none => natDigits q.num.natAbs ++ [47] ++ natDigits q.den

/-- Every whitespace character is the plain space, and no two adjacent
characters are both whitespace: the shape of collapsed text. -/
def NoRun (l : PyStr) : Prop :=
  (∀ c ∈ l, pyWsB c = true → c = 32) ∧
  l.Chain' (fun a b => ¬(pyWsB a = true ∧ pyWsB b = true))

/-- The first character, when there is one, is not whitespace. -/
def HeadOk (l : PyStr) : Prop := ∀ c, l.head? = some c → pyWsB c = false

/-- The last character, when there is one, is not whitespace. -/
def LastOk (l : PyStr) : Prop := HeadOk l.reverse

/-! ### C2: price tier boundaries -/

/-- C2: derive_price_tier maps a price to cheap exactly below 20, to moderate
exactly on [20, 50), and to expensive exactly from 50, with the lower
boundary inclusive: 19.99 is cheap, 20.00 moderate, 49.99 moderate, 50.00
expensive. -/
theorem C2_price_tier_boundaries :
    (∀ p : ℚ,
      (derive_price_tier p = str "cheap" ↔ p < 20) ∧
      (derive_price_tier p = str "moderate" ↔ 20 ≤ p ∧ p < 50) ∧
      (derive_price_tier p = str "expensive" ↔ 50 ≤ p)) ∧
    derive_price_tier (1999/100) = str "cheap" ∧
    derive_price_tier 20 = str "moderate" ∧
    derive_price_tier (4999/100) = str "moderate" ∧
    derive_price_tier 50 = str "expensive" := by
  have hcm : str "cheap" ≠ str "moderate" := by decide
  have hce : str "cheap" ≠ str "expensive" := by decide
  have hme : str "moderate" ≠ str "expensive" := by decide
  refine ⟨fun p => ?_, by norm_num [derive_price_tier], by norm_num [derive_price_tier],
    by norm_num [derive_price_tier], by norm_num [derive_price_tier]⟩
  unfold derive_price_tier
  split_ifs with h1 h2
  · exact ⟨iff_of_true rfl h1,
      iff_of_false hcm (fun hq => absurd h1 (by linarith [hq.1])),
      iff_of_false hce (fun hq => absurd h1 (by linarith))⟩
  · exact ⟨iff_of_false (Ne.symm hcm) h1,
      iff_of_true rfl ⟨le_of_not_lt h1, h2⟩,
      iff_of_false hme (fun hq => absurd h2 (by linarith))⟩
  · exact ⟨iff_of_false (Ne.symm hce) h1,
      iff_of_false (Ne.symm hme) (fun hq => absurd hq.2 h2),
      iff_of_true rfl (le_of_not_lt h2)⟩

/-! ### C3: currency conversion -/

/-- Rounding to the nearest integer, half to even, moves a value by at most
one half. -/
theorem roundHalfEven_dist (q : ℚ) : |(roundHalfEven q : ℚ) - q| ≤ 1 / 2 := by
  have h0 : (⌊q⌋ : ℚ) ≤ q := Int.floor_le q
  have h1 : q < (⌊q⌋ : ℚ) + 1 := Int.lt_floor_add_one q
  unfold roundHalfEven
  split_ifs with ha hb hc
  · rw [abs_sub_comm, abs_of_nonneg (by linarith)]
    linarith
  · push_cast
    rw [abs_of_nonneg (by linarith)]
    linarith
  · rw [abs_sub_comm, abs_of_nonneg (by linarith)]
    linarith
  · push_cast
    rw [abs_of_nonneg (by linarith)]
    linarith

/-- C3 counterexample: on the spec's own example inputs the conversion yields
5461.74 (the correctly rounded product), not the claimed 5461.69. -/
theorem C3_counterexample :
    convert_price_to_inr (5177/100) (1055/10) = 546174/100 ∧
    (546174/100 : ℚ) ≠ 546169/100 := by
  constructor
  · norm_num [convert_price_to_inr, pyRound2, roundHalfEven]
  · norm_num

/-- C3 (amended): convert_price_to_inr returns 0.0 whenever either input is
zero/absent; otherwise it returns the product rounded half-to-even to 2
fractional digits (the result times 100 is an integer and sits within 1/200
of the exact product); in particular convert_price(51.77, 105.50) = 5461.74,
convert_price(0, 105.50) = 0.0 and convert_price(10, 0) = 0.0. -/
theorem C3_convert_price_amended :
    (∀ p r : ℚ, p = 0 ∨ r = 0 → convert_price_to_inr p r = 0) ∧
    (∀ p r : ℚ, p ≠ 0 → r ≠ 0 →
      convert_price_to_inr p r = pyRound2 (p * r) ∧
      (convert_price_to_inr p r * 100).den = 1 ∧
      |convert_price_to_inr p r - p * r| ≤ 1 / 200) ∧
    convert_price_to_inr (5177/100) (1055/10) = 546174/100 ∧
    convert_price_to_inr 0 (1055/10) = 0 ∧
    convert_price_to_inr 10 0 = 0 := by
  refine ⟨fun p r h => by simp [convert_price_to_inr, h], fun p r hp hr => ?_,
    C3_counterexample.1, by norm_num [convert_price_to_inr], by norm_num [convert_price_to_inr]⟩
  have hd : convert_price_to_inr p r = pyRound2 (p * r) := by
    simp [convert_price_to_inr, hp, hr]
  refine ⟨hd, ?_, ?_⟩
  · rw [hd]
    unfold pyRound2
    rw [div_mul_cancel₀ _ (by norm_num : (100 : ℚ) ≠ 0)]
    exact Rat.intCast_den _
  · rw [hd]
    have h := roundHalfEven_dist (p * r * 100)
    unfold pyRound2
    have : (roundHalfEven (p * r * 100) : ℚ) / 100 - p * r =
        ((roundHalfEven (p * r * 100) : ℚ) - p * r * 100) / 100 := by ring
    rw [this, abs_div, abs_of_pos (by norm_num : (0:ℚ) < 100)]
    rw [div_le_div_iff (by norm_num) (by norm_num)]
    nlinarith [h]

/-- C3 witness: the amended theorem instantiated at 51.77 and 105.50. -/
theorem C3_witness :
    convert_price_to_inr (mkRat 5177 100) (mkRat 1055 10) =
      pyRound2 (mkRat 5177 100 * mkRat 1055 10) ∧
    (convert_price_to_inr (mkRat 5177 100) (mkRat 1055 10) * 100).den = 1 ∧
    |convert_price_to_inr (mkRat 5177 100) (mkRat 1055 10) -
      mkRat 5177 100 * mkRat 1055 10| ≤ 1 / 200 :=
  C3_convert_price_amended.2.1 (mkRat 5177 100) (mkRat 1055 10) (by decide) (by decide)

/-! ### C7 and C8: the REPLACE loader -/

/-- C7: a successful load_products_replace leaves the destination table
holding exactly the input batch, whatever its prior contents, so a second
successful run with the same batch changes nothing (idempotence as
set-equality of the full table contents). -/
theorem C7_load_replace_idempotent :
    ∀ (products : List EnrichedProduct) (db : ProductsDB),
      load_products_replace products true true db = (LoadOutcome.ok, ⟨products⟩) ∧
      load_products_replace products true true
          (load_products_replace products true true db).2 =
        load_products_replace products true true db := by
  intro products db
  simp [load_products_replace]

/-- C8: the statement-failure path of load_products_replace is handled (False
is returned and the rollback leaves the prior rows intact), but the
connection-failure path escapes with an uncontrolled exception — the except
and finally blocks dereference the unbound locals conn and cursor — rather
than surfacing a failure result, contradicting the claim that every error
path, including failure to open the connection, yields a controlled
LoadError. -/
theorem C8_connect_failure_uncontrolled :
    ∀ (products : List EnrichedProduct) (db : ProductsDB),
      load_products_replace products false true db = (LoadOutcome.uncaught, db) ∧
      load_products_replace products true false db = (LoadOutcome.failed, db) := by
  intro products db
  simp [load_products_replace]

/-! ### C4: single-record enrichment failure -/

/-- C4 counterexample: a record whose price parses as the negative number
-5.0 — hence does not parse as a non-negative number — is nevertheless
enriched successfully by transform_product instead of being dropped. -/
theorem C4_counterexample :
    pyFloat negRaw.price_gbp = some (mkRat (-5) 1) ∧
    (mkRat (-5) 1 : ℚ) < 0 ∧
    (transform_product negRaw (mkRat 1055 10)).isSome = true := by
  refine ⟨by decide, by decide, by decide⟩

/-- C4 (amended): transform_product fails — returning the failure marker so
the record is dropped while the batch continues — exactly when the record's
price cannot be parsed as a number at all; every record whose price parses
as a number, negative values included, is enriched with that parsed price. -/
theorem C4_transform_amended :
    (∀ (p : RawProduct) (rate : ℚ),
      transform_product p rate = Option.none ↔ pyFloat p.price_gbp = Option.none) ∧
    (∀ (p : RawProduct) (rate q : ℚ), pyFloat p.price_gbp = some q →
      ∃ e, transform_product p rate = some e ∧ e.price_gbp = q) := by
  constructor
  · intro p rate
    unfold transform_product
    cases h : pyFloat p.price_gbp <;> simp [h]
  · intro p rate q h
    unfold transform_product
    rw [h]
    exact ⟨_, rfl, rfl⟩

/-- C4 witness: the amended theorem at the demo record, whose price parses
as 51.77. -/
theorem C4_witness :
    ∃ e, transform_product sampleRaw (mkRat 1055 10) = some e ∧
      e.price_gbp = mkRat 5177 100 :=
  C4_transform_amended.2 sampleRaw (mkRat 1055 10) (mkRat 5177 100) (by decide)

/-! ### C9: availability parsing -/

/-- C9: parse_availability yields (Unknown, None) on empty input; otherwise
the quantity is the first match of the "(digits available)" pattern in the
cleaned text (None when absent) and the status is decided by
case-insensitive substring match with "in stock" checked first; in
particular "In stock (22 available)" parses to (In Stock, 22) and
"Out of stock" to (Out of Stock, None). -/
theorem C9_parse_availability :
    parse_availability [] = (str "Unknown", Option.none) ∧
    (∀ s, s ≠ [] →
      ((parse_availability s).1 = str "In Stock" ↔
        strContains (pyLower (clean_text s)) (str "in stock") = true) ∧
      ((parse_availability s).1 = str "Out of Stock" ↔
        strContains (pyLower (clean_text s)) (str "in stock") = false ∧
        strContains (pyLower (clean_text s)) (str "out of stock") = true) ∧
      ((parse_availability s).1 = str "Unknown" ↔
        strContains (pyLower (clean_text s)) (str "in stock") = false ∧
        strContains (pyLower (clean_text s)) (str "out of stock") = false) ∧
      (parse_availability s).2 = searchQty (clean_text s)) ∧
    parse_availability (str "In stock (22 available)") = (str "In Stock", some 22) ∧
    parse_availability (str "Out of stock") = (str "Out of Stock", Option.none) := by
  have his : str "In Stock" ≠ str "Out of Stock" := by decide
  have hiu : str "In Stock" ≠ str "Unknown" := by decide
  have hou : str "Out of Stock" ≠ str "Unknown" := by decide
  refine ⟨by decide, fun s hs => ?_, by decide, by decide⟩
  have hps : parse_availability s =
      (if strContains (pyLower (clean_text s)) (str "in stock") then str "In Stock"
       else if strContains (pyLower (clean_text s)) (str "out of stock") then str "Out of Stock"
       else str "Unknown", searchQty (clean_text s)) := by
    simp [parse_availability, hs]
  rw [hps]
  split_ifs with h1 h2
  · exact ⟨iff_of_true rfl h1,
      iff_of_false his (fun hc => by simp [h1] at hc),
      iff_of_false hiu (fun hc => by simp [h1] at hc), rfl⟩
  · exact ⟨iff_of_false (Ne.symm his) h1,
      iff_of_true rfl ⟨by simpa using h1, h2⟩,
      iff_of_false hou (fun hc => by simp [h2] at hc), rfl⟩
  · exact ⟨iff_of_false (Ne.symm hiu) h1,
      iff_of_false (Ne.symm hou) (fun hc => h2 hc.2),
      iff_of_true rfl ⟨by simpa using h1, by simpa using h2⟩, rfl⟩

/-- C9 witness: the quantified part of the theorem at "Out of stock". -/
theorem C9_witness :
    (parse_availability (str "Out of stock")).2 =
      searchQty (clean_text (str "Out of stock")) :=
  (C9_parse_availability.2.1 (str "Out of stock") (by decide)).2.2.2

/-! ### C5: exchange-rate resolution with staging-table preference -/

/-- A result produced by the latestRow fold comes from the store or from the
initial accumulator. -/
theorem latestRow_fold_mem (l : List RateRow) :
    ∀ (acc : Option RateRow) (row : RateRow),
      l.foldl
        (fun acc row =>
          match acc with
          | Option.none => some row
          | some best => if best.rdate < row.rdate then some row else some best)
        acc = some row →
      row ∈ l ∨ acc = some row := by
  induction l with
  | nil => exact fun acc row h => Or.inr h
  | cons r t ih =>
    intro acc row h
    rcases ih _ row h with hm | he
    · exact Or.inl (List.mem_cons_of_mem _ hm)
    · cases acc with
      | none =>
        simp only [] at he
        exact Or.inl (by rw [← Option.some.injEq r row |>.mp he]; exact List.mem_cons_self r t)
      | some best =>
        by_cases hb : best.rdate < r.rdate
        · simp only [hb, if_true] at he
          exact Or.inl (by rw [← Option.some.injEq r row |>.mp he]; exact List.mem_cons_self r t)
        · simp only [hb, if_false] at he
          exact Or.inr he

/-- The most recent staging row is a row of the store. -/
theorem latestRow_mem (store : List RateRow) (row : RateRow)
    (h : latestRow store = some row) : row ∈ store := by
  rcases latestRow_fold_mem store Option.none row h with hm | he
  · exact hm
  · exact absurd he (by simp)

/-- The falsy rate values do not pass the truthiness test. -/
theorem truthyRate_none : truthyRate Option.none = false := rfl

/-- With a falsy transient rate and nothing from the store, no rate resolves. -/
theorem resolveRate_none (xcom : Option ℚ) (hx : truthyRate xcom = false) :
    resolveRate Option.none xcom = Option.none := by
  unfold resolveRate
  rw [truthyRate_none]
  simp [hx]

/-- C5: the transform task takes the Rate Store's rate whenever the store
yields one (the transient rate is ignored), falls back to the transient
XCom rate exactly when the store yields nothing, fails the whole batch with
NoRateAvailable — transforming no record — when neither source yields a
rate, and in particular succeeds using 105.50 when the store is empty and
105.50 is supplied transiently. -/
theorem C5_rate_fallback :
    (∀ (dbOk : Bool) (store : List RateRow) (xcom : Option ℚ) (r : ℚ),
      (∀ row ∈ store, 0 < row.rate) →
      get_latest_exchange_rate dbOk store = some r →
      resolveRate (get_latest_exchange_rate dbOk store) xcom = some r) ∧
    (∀ (dbOk : Bool) (store : List RateRow) (x : ℚ),
      get_latest_exchange_rate dbOk store = Option.none → x ≠ 0 →
      resolveRate (get_latest_exchange_rate dbOk store) (some x) = some x) ∧
    (∀ (raw : List RawProduct) (dbOk : Bool) (store : List RateRow) (xcom : Option ℚ),
      raw ≠ [] →
      get_latest_exchange_rate dbOk store = Option.none →
      truthyRate xcom = false →
      transform_products_task raw dbOk store xcom =
        TaskResult.err TaskError.noRateAvailable) ∧
    resolveRate (get_latest_exchange_rate true []) (some (mkRat 1055 10)) =
      some (mkRat 1055 10) ∧
    transform_products_task [sampleRaw] true [] (some (mkRat 1055 10)) =
      TaskResult.ok (transform_products [sampleRaw] (mkRat 1055 10)) := by
  refine ⟨?_, ?_, ?_, by decide, by rfl⟩
  · intro dbOk store xcom r hpos h2
    have hr : r ≠ 0 := by
      cases dbOk with
      | false => simp [get_latest_exchange_rate] at h2
      | true =>
        simp only [get_latest_exchange_rate, if_true, Option.map_eq_some'] at h2
        obtain ⟨row, hrow, hrate⟩ := h2
        exact (hrate ▸ hpos row (latestRow_mem store row hrow)).ne'
    rw [h2]
    simp [resolveRate, truthyRate, hr]
  · intro dbOk store x h hx
    rw [h]
    simp [resolveRate, truthyRate, hx]
  · intro raw dbOk store xcom hraw h hx
    rw [transform_products_task, if_neg hraw, h, resolveRate_none xcom hx]

/-- C5 witness: the store-preference part of the theorem at a one-row store
holding the positive rate 105.50. -/
theorem C5_witness :
    resolveRate (get_latest_exchange_rate true [RateRow.mk 1 (mkRat 1055 10)])
        (some (mkRat 99 1)) = some (mkRat 1055 10) :=
  C5_rate_fallback.1 true [RateRow.mk 1 (mkRat 1055 10)] (some (mkRat 99 1))
    (mkRat 1055 10) (by decide) (by decide)

/-! ### C6: independent enrichment and batch-emptiness failure -/

/-- C6: enrichment is per-record — a failing record is skipped without
aborting the batch and the output is exactly the list of successfully
enriched records — while the transform task fails with EmptyResult exactly
when a non-empty input yields zero survivors; from one valid and one
price-unparseable record it returns exactly one enriched record and does
not fail. -/
theorem C6_batch_independence :
    (∀ (ps1 : List RawProduct) (p : RawProduct) (ps2 : List RawProduct) (rate : ℚ),
      transform_product p rate = Option.none →
      transform_products (ps1 ++ p :: ps2) rate = transform_products (ps1 ++ ps2) rate) ∧
    (∀ (ps : List RawProduct) (rate : ℚ) (e : EnrichedProduct),
      e ∈ transform_products ps rate ↔ ∃ p ∈ ps, transform_product p rate = some e) ∧
    (∀ (raw : List RawProduct) (dbOk : Bool) (store : List RateRow)
        (xcom : Option ℚ) (rate : ℚ),
      resolveRate (get_latest_exchange_rate dbOk store) xcom = some rate →
      (transform_products_task raw dbOk store xcom = TaskResult.err TaskError.emptyResult ↔
        raw ≠ [] ∧ transform_products raw rate = [])) ∧
    (transform_products [sampleRaw, badRaw] (mkRat 1055 10)).length = 1 ∧
    transform_products_task [sampleRaw, badRaw] true [] (some (mkRat 1055 10)) ≠
      TaskResult.err TaskError.emptyResult := by
  refine ⟨?_, ?_, ?_, by rfl, by decide⟩
  · intro ps1 p ps2 rate h
    simp [transform_products, List.filterMap_append, List.filterMap_cons, h]
  · intro ps rate e
    exact List.mem_filterMap
  · intro raw dbOk store xcom rate hres
    by_cases hraw : raw = []
    · subst hraw
      simp [transform_products_task]
    · rw [transform_products_task, if_neg hraw, hres]
      by_cases hts : transform_products raw rate = []
      · simp [hts, hraw]
      · simp [hts, hraw]

/-- C6 witness: the skipped-record part of the theorem at the
price-unparseable record. -/
theorem C6_witness :
    transform_products ([] ++ badRaw :: []) (mkRat 1055 10) =
      transform_products ([] ++ []) (mkRat 1055 10) :=
  C6_batch_independence.1 [] badRaw [] (mkRat 1055 10) (by decide)

/-! ### C1: product identity -/

/-- One compression step always yields an eight-word state. -/
theorem sha256Compress_length (st block : List Nat) :
    (sha256Compress st block).length = 8 := by
  simp [sha256Compress]

/-- The digest state stays eight words long across all blocks. -/
theorem sha256_fold_length (blocks : List (List Nat)) :
    ∀ st : List Nat, st.length = 8 →
      (blocks.foldl sha256Compress st).length = 8 := by
  induction blocks with
  | nil => exact fun st h => h
  | cons b t ih => exact fun st _ => ih _ (sha256Compress_length st b)

/-- Packing words into a natural number in base 2^32 keeps the accumulated
value below the bound raised by 2^32 per word. -/
theorem packWords_lt (l : List Nat) :
    ∀ acc B : Nat, acc < B →
      l.foldl (fun acc w => acc * 2 ^ 32 + w % 2 ^ 32) acc < B * 2 ^ (32 * l.length) := by
  induction l with
  | nil => intro acc B h; simpa using h
  | cons w t ih =>
    intro acc B h
    have h1 : acc * 2 ^ 32 + w % 2 ^ 32 < B * 2 ^ 32 := by
      have hw : w % 2 ^ 32 < 2 ^ 32 := Nat.mod_lt _ (by norm_num)
      have hacc : acc + 1 ≤ B := h
      nlinarith
    have h2 := ih (acc * 2 ^ 32 + w % 2 ^ 32) (B * 2 ^ 32) h1
    have h3 : B * 2 ^ 32 * 2 ^ (32 * t.length) = B * 2 ^ (32 * (t.length + 1)) := by
      rw [show 32 * (t.length + 1) = 32 * t.length + 32 from by ring, pow_add]
      ring
    rw [List.foldl_cons, List.length_cons]
    rw [h3] at h2
    exact h2

/-- The digest value is a 256-bit number. -/
theorem sha256Nat_lt (msg : List Nat) : sha256Nat msg < 2 ^ 256 := by
  have hlen : (sha256Words msg).length = 8 :=
    sha256_fold_length (toBlocks (sha256Pad msg)) sha256H0 rfl
  have h := packWords_lt (sha256Words msg) 0 1 Nat.one_pos
  rw [hlen] at h
  unfold sha256Nat
  calc (sha256Words msg).foldl (fun acc w => acc * 2 ^ 32 + w % 2 ^ 32) 0
      < 1 * 2 ^ (32 * 8) := h
    _ = 2 ^ 256 := by norm_num

/-- C1 counterexample: a 256-bit digest cannot separate all titles — there
are infinitely many titles and only finitely many digests, so two distinct
titles (category and price held fixed) share the same product id; the
universal claim that changing any one input changes the output is false. -/
theorem C1_counterexample :
    ¬ ∀ (t t' c : PyStr) (p : ℚ), t ≠ t' →
        generate_product_id t c p ≠ generate_product_id t' c p := by
  intro hall
  obtain ⟨t, t', hne, heq⟩ :=
    Finite.exists_ne_map_eq_of_infinite
      (fun t : PyStr =>
        (⟨sha256Nat (utf8Encode (hashInput t (str "Poetry") 5)), sha256Nat_lt _⟩ :
          Fin (2 ^ 256)))
  have hv : sha256Nat (utf8Encode (hashInput t (str "Poetry") 5)) =
      sha256Nat (utf8Encode (hashInput t' (str "Poetry") 5)) := congrArg Fin.val heq
  exact hall t t' (str "Poetry") 5 hne (congrArg (natToHex 64) hv)

/-- Every code point emitted by natDigits is a decimal digit. -/
theorem natDigits_digits (n : Nat) : ∀ d ∈ natDigits n, isDigitCp d = true := by
  induction n using Nat.strong_induction_on with
  | _ n ih =>
    intro d hd
    rw [natDigits] at hd
    split at hd
    · next h =>
      simp only [List.mem_singleton] at hd
      subst hd
      simp only [isDigitCp, Bool.and_eq_true, decide_eq_true_eq]
      omega
    · next h =>
      rcases List.mem_append.mp hd with h1 | h2
      · exact ih (n / 10) (Nat.div_lt_self (by omega) (by omega)) d h1
      · simp only [List.mem_singleton] at h2
        subst h2
        have : n % 10 < 10 := Nat.mod_lt _ (by omega)
        simp only [isDigitCp, Bool.and_eq_true, decide_eq_true_eq]
        omega

/-- natDigits never returns the empty string. -/
theorem natDigits_ne_nil (n : Nat) : natDigits n ≠ [] := by
  rw [natDigits]
  split
  · simp
  · simp

/-- Appending one digit multiplies the value by ten and adds the digit. -/
theorem digitsVal_append (l : PyStr) (d : Nat) :
    digitsVal (l ++ [d]) = 10 * digitsVal l + (d - 48) := by
  unfold digitsVal
  rw [List.foldl_append]
  rfl

/-- digitsVal inverts natDigits. -/
theorem digitsVal_natDigits (n : Nat) : digitsVal (natDigits n) = n := by
  induction n using Nat.strong_induction_on with
  | _ n ih =>
    rw [natDigits]
    split
    · next h =>
      simp only [digitsVal, List.foldl_cons, List.foldl_nil]
      omega
    · next h =>
      rw [digitsVal_append, ih (n / 10) (Nat.div_lt_self (by omega) (by omega))]
      omega

/-- Leading zero digits do not change the value. -/
theorem digitsVal_pad (m : Nat) (l : PyStr) :
    digitsVal (List.replicate m 48 ++ l) = digitsVal l := by
  induction m with
  | zero => simp
  | succ k ih =>
    rw [List.replicate_succ, List.cons_append]
    show List.foldl _ (10 * 0 + (48 - 48)) _ = _
    exact ih

/-- A number below 10^k has at most k digits. -/
theorem natDigits_length_le (k : Nat) :
    ∀ n : Nat, 1 ≤ k → n < 10 ^ k → (natDigits n).length ≤ k := by
  induction k with
  | zero => omega
  | succ k ih =>
    intro n _ h
    rw [natDigits]
    split
    · next => simp
    · next hn =>
      rw [List.length_append, List.length_singleton]
      have hk1 : 1 ≤ k := by
        rcases Nat.eq_zero_or_pos k with h0 | h1
        · subst h0; simp at h; omega
        · exact h1
      have hdiv : n / 10 < 10 ^ k := by
        apply Nat.div_lt_of_lt_mul
        rw [show 10 * 10 ^ k = 10 ^ (k + 1) from (pow_succ 10 k).symm ▸ by ring]
        exact h
      have := ih (n / 10) hk1 hdiv
      omega

/-- takeWhile and dropWhile split a digit block followed by a non-digit. -/
theorem digits_split (l : PyStr) (c : Nat) (r : PyStr)
    (hl : ∀ x ∈ l, isDigitCp x = true) (hc : isDigitCp c = false) :
    (l ++ c :: r).takeWhile isDigitCp = l ∧ (l ++ c :: r).dropWhile isDigitCp = c :: r := by
  induction l with
  | nil => simp [List.takeWhile_cons, List.dropWhile_cons, hc]
  | cons a t ih =>
    have ha := hl a (by simp)
    have iht := ih (fun x hx => hl x (by simp [hx]))
    simp [List.takeWhile_cons, List.dropWhile_cons, ha, iht.1, iht.2]

/-- pyFloatRepr is the optional sign followed by the digit-led core. -/
theorem pyFloatRepr_split (q : ℚ) :
    pyFloatRepr q = (if q < 0 then [45] else []) ++ reprCore q := by
  simp only [pyFloatRepr, reprCore]
  rcases decExp q.den with _ | k
  · simp [List.append_assoc]
  · by_cases hk0 : k = 0 <;> simp [hk0, List.append_assoc]

/-- A digit block followed by anything starts with a digit. -/
theorem natDigits_head_digit (x : Nat) (rest : PyStr) :
    ∃ c r, natDigits x ++ rest = c :: r ∧ isDigitCp c = true := by
  cases h : natDigits x with
  | nil => exact absurd h (natDigits_ne_nil x)
  | cons c t =>
    exact ⟨c, t ++ rest, by simp [h], natDigits_digits x c (by rw [h]; simp)⟩

/-- The core of pyFloatRepr starts with a digit. -/
theorem reprCore_head_digit (q : ℚ) :
    ∃ c r, reprCore q = c :: r ∧ isDigitCp c = true := by
  unfold reprCore
  rcases decExp q.den with _ | k
  · show ∃ c r, natDigits q.num.natAbs ++ [47] ++ natDigits q.den = c :: r ∧
        isDigitCp c = true
    rw [List.append_assoc]
    exact natDigits_head_digit _ _
  · show ∃ c r,
        (if k = 0 then natDigits q.num.natAbs ++ [46, 48]
         else natDigits (q.num.natAbs * 10 ^ k / q.den / 10 ^ k) ++ [46] ++
           natDigitsPad (q.num.natAbs * 10 ^ k / q.den % 10 ^ k) k) = c :: r ∧
        isDigitCp c = true
    split_ifs
    · exact natDigits_head_digit _ _
    · rw [List.append_assoc]
      exact natDigits_head_digit _ _

/-- Reading back a signed rendering: the sign character routes the parser to
the core with the matching integer sign. -/
theorem parseDecRepr_sign (neg : Bool) (core : PyStr)
    (h : ∃ c r, core = c :: r ∧ isDigitCp c = true) :
    parseDecRepr ((if neg then [45] else []) ++ core) =
      coreVal (if neg then -1 else 1) core := by
  obtain ⟨c, r, hc, hd⟩ := h
  have hcne : c ≠ 45 := by
    simp only [isDigitCp, Bool.and_eq_true, decide_eq_true_eq] at hd
    omega
  cases neg with
  | false =>
    have ht : core.take 1 ≠ [45] := by
      rw [hc]
      simp [List.take_succ_cons, hcne]
    simp only [if_false, Bool.false_eq_true, List.nil_append]
    unfold parseDecRepr coreVal
    rw [if_neg ht, if_neg ht]
  | true =>
    have ht : ((45 :: core).take 1) = [45] := by simp
    simp only [if_true, List.singleton_append]
    unfold parseDecRepr coreVal
    rw [if_pos ht, if_pos ht]
    simp

/-- The sign factor recovers the numerator from its absolute value. -/
theorem sign_natAbs (q : ℚ) :
    (if q < 0 then (-1 : ℤ) else 1) * (q.num.natAbs : ℤ) = q.num := by
  rcases lt_or_le q 0 with hq | hq
  · have h : q.num < 0 := Rat.num_neg.mpr hq
    rw [if_pos hq]
    omega
  · have h : 0 ≤ q.num := Rat.num_nonneg.mpr hq
    rw [if_neg (not_lt.mpr hq)]
    omega

/-- parseDecRepr inverts pyFloatRepr on every rational. -/
theorem parseDecRepr_pyFloatRepr (q : ℚ) : parseDecRepr (pyFloatRepr q) = q := by
  have hbool : ∀ b : Bool, ((if b = true then [45] else []) : PyStr) = if b then [45] else [] := by
    intro b; cases b <;> rfl
  rw [pyFloatRepr_split,
    show ((if q < 0 then [45] else []) : PyStr) = if decide (q < 0) then [45] else [] from by
      rcases Classical.em (q < 0) with h | h <;> simp [h],
    parseDecRepr_sign (decide (q < 0)) _ (reprCore_head_digit q)]
  have hsgn : ((if decide (q < 0) = true then (-1 : ℤ) else 1)) = if q < 0 then (-1 : ℤ) else 1 := by
    rcases Classical.em (q < 0) with h | h <;> simp [h]
  rw [show ((if decide (q < 0) then (-1 : ℤ) else 1)) = if q < 0 then (-1 : ℤ) else 1 from hsgn]
  set sgn : ℤ := if q < 0 then -1 else 1 with hsgn_def
  have hs : sgn * (q.num.natAbs : ℤ) = q.num := sign_natAbs q
  have hden : (q.den : ℚ) ≠ 0 := by
    exact_mod_cast q.den_nz
  unfold reprCore
  rcases hk : decExp q.den with _ | k
  · -- non-decimal marker branch: num/den
    show coreVal sgn (natDigits q.num.natAbs ++ [47] ++ natDigits q.den) = q
    rw [List.append_assoc, List.singleton_append]
    unfold coreVal
    have hsp := digits_split (natDigits q.num.natAbs) 47 (natDigits q.den)
      (natDigits_digits _) (by decide)
    rw [hsp.1, hsp.2]
    show mkRat (sgn * digitsVal (natDigits q.num.natAbs))
        (digitsVal (natDigits q.den)) = q
    rw [digitsVal_natDigits, digitsVal_natDigits]
    rw [Rat.mkRat_eq_div]
    conv_rhs => rw [← Rat.num_div_den q]
    rw [div_eq_div_iff hden hden]
    have habs : (sgn : ℤ) * |q.num| = q.num := by rw [Int.abs_eq_natAbs]; exact hs
    have hsQ : ((sgn : ℤ) : ℚ) * |(q.num : ℚ)| = (q.num : ℚ) := by exact_mod_cast habs
    push_cast at hsQ ⊢
    linear_combination (q.den : ℚ) * hsQ
  · show coreVal sgn
        (if k = 0 then natDigits q.num.natAbs ++ [46, 48]
         else natDigits (q.num.natAbs * 10 ^ k / q.den / 10 ^ k) ++ [46] ++
           natDigitsPad (q.num.natAbs * 10 ^ k / q.den % 10 ^ k) k) = q
    split_ifs with hk0
    · -- integral value: "a.0"
      subst hk0
      have hk' : (List.range (q.den + 1)).find? (fun j => decide (q.den ∣ 10 ^ j)) =
          some 0 := hk
      have hfind := List.find?_some hk'
      simp only [decide_eq_true_eq] at hfind
      have hdvd : q.den ∣ 10 ^ 0 := hfind
      have hden1 : q.den = 1 := Nat.dvd_one.mp (by simpa using hdvd)
      have hsp := digits_split (natDigits q.num.natAbs) 46 [48]
        (natDigits_digits _) (by decide)
      unfold coreVal
      rw [show (natDigits q.num.natAbs ++ [46, 48] : PyStr) =
            natDigits q.num.natAbs ++ 46 :: [48] from rfl]
      rw [hsp.1, hsp.2]
      show mkRat (sgn * (digitsVal (natDigits q.num.natAbs) * 10 ^ (1:Nat) + digitsVal [48]))
          (10 ^ (1:Nat)) = q
      rw [digitsVal_natDigits]
      rw [Rat.mkRat_eq_div]
      conv_rhs => rw [← Rat.num_div_den q]
      rw [hden1]
      have h48 : digitsVal [48] = 0 := rfl
      rw [h48]
      rw [div_eq_div_iff (by norm_num) (by norm_num)]
      have habs : (sgn : ℤ) * |q.num| = q.num := by rw [Int.abs_eq_natAbs]; exact hs
      have hsQ : ((sgn : ℤ) : ℚ) * |(q.num : ℚ)| = (q.num : ℚ) := by exact_mod_cast habs
      push_cast at hsQ ⊢
      linear_combination (10 : ℚ) * hsQ
    · -- proper decimal: "ip.frac" with k fractional digits
      have hk1 : 1 ≤ k := Nat.one_le_iff_ne_zero.mpr hk0
      have hk' : (List.range (q.den + 1)).find? (fun j => decide (q.den ∣ 10 ^ j)) =
          some k := hk
      have hfind := List.find?_some hk'
      simp only [decide_eq_true_eq] at hfind
      have hdvd : q.den ∣ 10 ^ k := hfind
      set a := q.num.natAbs with ha_def
      set scaled := a * 10 ^ k / q.den with hscaled_def
      have hsc : scaled * q.den = a * 10 ^ k :=
        Nat.div_mul_cancel (Dvd.dvd.mul_left hdvd a)
      have hflt : scaled % 10 ^ k < 10 ^ k := Nat.mod_lt _ (by positivity)
      have hlen : (natDigitsPad (scaled % 10 ^ k) k).length = k := by
        unfold natDigitsPad
        rw [List.length_append, List.length_replicate]
        have := natDigits_length_le k (scaled % 10 ^ k) hk1 hflt
        omega
      have hval : digitsVal (natDigitsPad (scaled % 10 ^ k) k) = scaled % 10 ^ k := by
        unfold natDigitsPad
        rw [digitsVal_pad, digitsVal_natDigits]
      rw [List.append_assoc, List.singleton_append]
      unfold coreVal
      have hsp := digits_split (natDigits (scaled / 10 ^ k)) 46
        (natDigitsPad (scaled % 10 ^ k) k) (natDigits_digits _) (by decide)
      rw [hsp.1, hsp.2]
      show mkRat (sgn * (digitsVal (natDigits (scaled / 10 ^ k)) *
            10 ^ (natDigitsPad (scaled % 10 ^ k) k).length +
            digitsVal (natDigitsPad (scaled % 10 ^ k) k)))
          (10 ^ (natDigitsPad (scaled % 10 ^ k) k).length) = q
      rw [digitsVal_natDigits, hlen, hval]
      have hsum : scaled / 10 ^ k * 10 ^ k + scaled % 10 ^ k = scaled := by
        rw [Nat.mul_comm (scaled / 10 ^ k) (10 ^ k)]
        exact Nat.div_add_mod _ _
      have hsumZ : ((scaled / 10 ^ k : Nat) : ℤ) * 10 ^ k + ((scaled % 10 ^ k : Nat) : ℤ) =
          (scaled : ℤ) := by exact_mod_cast hsum
      rw [hsumZ, Rat.mkRat_eq_div]
      conv_rhs => rw [← Rat.num_div_den q]
      rw [div_eq_div_iff (by positivity) hden]
      have hscQ : (scaled : ℚ) * q.den = (a : ℚ) * 10 ^ k := by exact_mod_cast hsc
      have habs : (sgn : ℤ) * |q.num| = q.num := by rw [Int.abs_eq_natAbs]; exact hs
      have hsQ : ((sgn : ℤ) : ℚ) * |(q.num : ℚ)| = (q.num : ℚ) := by exact_mod_cast habs
      have haQ : (a : ℚ) = |(q.num : ℚ)| := by
        rw [ha_def]
        simp [Int.cast_natAbs]
      push_cast at hsQ hscQ ⊢
      linear_combination ((sgn : ℤ) : ℚ) * hscQ + ((10 : ℚ) ^ k) * hsQ +
        ((sgn : ℤ) : ℚ) * (10 : ℚ) ^ k * haQ

/-- pyFloatRepr renders distinct rationals distinctly. -/
theorem pyFloatRepr_injective : Function.Injective pyFloatRepr :=
  Function.LeftInverse.injective parseDecRepr_pyFloatRepr

/-- C1 (amended): generate_product_id is deterministic — identical (title,
category, price) triples always produce the identical hex-encoded SHA-256
digest of the UTF-8 bytes of "title|category|price" — and changing any one
of the three inputs while holding the other two fixed changes the string
being hashed; the 256-bit digest itself cannot be guaranteed to change
(collisions exist by pigeonhole, per the counterexample). -/
theorem C1_product_id_amended :
    (∀ (t c : PyStr) (p : ℚ),
      generate_product_id t c p =
        natToHex 64 (sha256Nat (utf8Encode (hashInput t c p))) ∧
      generate_product_id t c p = generate_product_id t c p) ∧
    (∀ (t t' c : PyStr) (p : ℚ), t ≠ t' → hashInput t c p ≠ hashInput t' c p) ∧
    (∀ (t c c' : PyStr) (p : ℚ), c ≠ c' → hashInput t c p ≠ hashInput t c' p) ∧
    (∀ (t c : PyStr) (p p' : ℚ), p ≠ p' → hashInput t c p ≠ hashInput t c p') := by
  refine ⟨fun t c p => ⟨rfl, rfl⟩, ?_, ?_, ?_⟩
  · intro t t' c p hne h
    apply hne
    simpa [hashInput, List.append_assoc] using h
  · intro t c c' p hne h
    apply hne
    simpa [hashInput, List.append_assoc] using h
  · intro t c p p' hne h
    apply hne
    apply pyFloatRepr_injective
    simpa [hashInput, List.append_assoc] using h

/-- C1 witness: the amended theorem separates two concrete titles at the
pre-hash string level. -/
theorem C1_witness :
    hashInput (str "A") (str "Poetry") (mkRat 5 1) ≠
      hashInput (str "B") (str "Poetry") (mkRat 5 1) :=
  C1_product_id_amended.2.1 (str "A") (str "B") (str "Poetry") (mkRat 5 1) (by decide)

/-! ### C10: idempotence of the text normalizers -/

/-- C10 counterexample: a whitespace-only category defeats idempotence of
normalize_category — the first pass yields the empty string (truthy input,
empty after cleaning), and the second pass maps that to "Uncategorized". -/
theorem C10_counterexample :
    normalize_category (normalize_category (str " ")) ≠ normalize_category (str " ") := by
  decide

/-- The empty string is collapsed. -/
theorem noRun_nil : NoRun [] := ⟨by simp, List.chain'_nil⟩

/-- Extending a collapsed string with an admissible head keeps it collapsed. -/
theorem noRun_cons (c : Nat) (l : PyStr) (hNR : NoRun l)
    (hc : pyWsB c = true → c = 32)
    (hadj : ∀ d, l.head? = some d → ¬(pyWsB c = true ∧ pyWsB d = true)) :
    NoRun (c :: l) := by
  refine ⟨?_, ?_⟩
  · intro x hx hw
    rcases List.mem_cons.mp hx with h | h
    · exact h ▸ hc (h ▸ hw)
    · exact hNR.1 x h hw
  · rw [List.chain'_cons']
    exact ⟨fun d hd => hadj d (by simpa using hd), hNR.2⟩

/-- The tail of a collapsed string is collapsed, and when the head is
whitespace the tail starts with a non-whitespace character. -/
theorem noRun_of_cons (c : Nat) (l : PyStr) (h : NoRun (c :: l)) :
    NoRun l ∧ (pyWsB c = true → c = 32 ∧ HeadOk l) := by
  have hch := (List.chain'_cons'.mp h.2)
  refine ⟨⟨fun x hx hw => h.1 x (List.mem_cons_of_mem _ hx) hw, hch.2⟩, ?_⟩
  intro hw
  refine ⟨h.1 c (List.mem_cons_self _ _) hw, ?_⟩
  intro d hd
  have := hch.1 d (by simpa using hd)
  rw [Bool.eq_false_iff]
  intro hdw
  exact this ⟨hw, hdw⟩

/-- The output of the whitespace collapse is collapsed, and with the
in-a-run flag set it starts with a non-whitespace character. -/
theorem collapseAux_props (l : PyStr) :
    NoRun (collapseAux false l) ∧ NoRun (collapseAux true l) ∧
      HeadOk (collapseAux true l) := by
  induction l with
  | nil => exact ⟨noRun_nil, noRun_nil, fun c hc => by simp [collapseAux] at hc⟩
  | cons c cs ih =>
    obtain ⟨ihF, ihT, ihH⟩ := ih
    by_cases hw : pyWsB c = true
    · have h32 : pyWsB (32 : Nat) = true := by decide
      have hcons : NoRun (32 :: collapseAux true cs) := by
        refine noRun_cons _ _ ihT (fun _ => rfl) ?_
        intro d hd
        have := ihH d hd
        rw [Bool.eq_false_iff] at this
        exact fun hc => this hc.2
      refine ⟨?_, ?_, ?_⟩
      · simpa [collapseAux, hw] using hcons
      · simpa [collapseAux, hw] using ihT
      · simpa [collapseAux, hw] using ihH
    · have hw' : pyWsB c = false := by rwa [Bool.not_eq_true] at hw
      have hcons : NoRun (c :: collapseAux false cs) := by
        refine noRun_cons _ _ ihF (fun hcc => absurd hcc hw) ?_
        intro d _
        exact fun hc => hw hc.1
      refine ⟨?_, ?_, ?_⟩
      · simpa [collapseAux, hw'] using hcons
      · simpa [collapseAux, hw'] using hcons
      · intro d hd
        rw [show collapseAux true (c :: cs) = c :: collapseAux false cs from by
          simp [collapseAux, hw']] at hd
        simp only [List.head?_cons, Option.some.injEq] at hd
        exact hd ▸ hw'

/-- Collapsing is the identity on collapsed strings (and with the flag set
when the string does not start with whitespace). -/
theorem collapseAux_fix (l : PyStr) :
    NoRun l → (collapseAux false l = l ∧ (HeadOk l → collapseAux true l = l)) := by
  induction l with
  | nil => exact fun _ => ⟨rfl, fun _ => rfl⟩
  | cons c cs ih =>
    intro h
    obtain ⟨htail, hws⟩ := noRun_of_cons c cs h
    obtain ⟨ihF, ihT⟩ := ih htail
    by_cases hw : pyWsB c = true
    · obtain ⟨h32, hhead⟩ := hws hw
      constructor
      · rw [show collapseAux false (c :: cs) = 32 :: collapseAux true cs from by
          simp [collapseAux, hw]]
        rw [ihT hhead, h32]
      · intro hH
        have := hH c (by simp)
        rw [hw] at this
        cases this
    · have hw' : pyWsB c = false := by rwa [Bool.not_eq_true] at hw
      constructor
      · rw [show collapseAux false (c :: cs) = c :: collapseAux false cs from by
          simp [collapseAux, hw']]
        rw [ihF]
      · intro _
        rw [show collapseAux true (c :: cs) = c :: collapseAux false cs from by
          simp [collapseAux, hw']]
        rw [ihF]

/-- Dropping leading whitespace leaves a string that does not start with
whitespace. -/
theorem headOk_dropWhile (l : PyStr) : HeadOk (l.dropWhile pyWsB) := by
  induction l with
  | nil => intro c hc; simp at hc
  | cons a t ih =>
    by_cases hw : pyWsB a = true
    · simpa [List.dropWhile_cons, hw] using ih
    · have hw' : pyWsB a = false := by rwa [Bool.not_eq_true] at hw
      intro c hc
      rw [List.dropWhile_cons, if_neg (by simp [hw'])] at hc
      simp only [List.head?_cons, Option.some.injEq] at hc
      exact hc ▸ hw'

/-- Dropping leading whitespace preserves collapsedness. -/
theorem noRun_dropWhile (l : PyStr) (h : NoRun l) : NoRun (l.dropWhile pyWsB) := by
  induction l with
  | nil => simpa using h
  | cons a t ih =>
    by_cases hw : pyWsB a = true
    · rw [List.dropWhile_cons, if_pos (by simp [hw])]
      exact ih (noRun_of_cons a t h).1
    · rwa [List.dropWhile_cons, if_neg (by simp [Bool.not_eq_true] at hw; simp [hw])]

/-- Dropping a (whitespace) prefix does not change the last character. -/
theorem dropWhile_getLast (l : PyStr) (h : l.dropWhile pyWsB ≠ []) :
    (l.dropWhile pyWsB).getLast? = l.getLast? := by
  induction l with
  | nil => simp at h
  | cons a t ih =>
    by_cases hw : pyWsB a = true
    · rw [List.dropWhile_cons, if_pos (by simp [hw])] at h ⊢
      have ht : t ≠ [] := by
        intro he
        rw [he] at h
        simp at h
      obtain ⟨d, ds, rfl⟩ := List.exists_cons_of_ne_nil ht
      rw [ih h, List.getLast?_cons_cons]
    · have hw' : pyWsB a = false := by rwa [Bool.not_eq_true] at hw
      rw [List.dropWhile_cons, if_neg (by simp [hw'])]

/-- Collapsedness survives reversal. -/
theorem noRun_reverse (l : PyStr) (h : NoRun l) : NoRun l.reverse := by
  refine ⟨fun c hc hw => h.1 c (List.mem_reverse.mp hc) hw, ?_⟩
  rw [List.chain'_reverse]
  exact h.2.imp (fun a b hab => fun hc => hab ⟨hc.2, hc.1⟩)

/-- Trailing-whitespace stripping preserves the absence of a leading
whitespace character. -/
theorem stripR_headOk (l : PyStr) (h : HeadOk l) : HeadOk (stripR l) := by
  intro c hc
  unfold stripR at hc
  rw [List.head?_reverse] at hc
  have hne : l.reverse.dropWhile pyWsB ≠ [] := by
    intro he
    rw [he] at hc
    simp at hc
  rw [dropWhile_getLast l.reverse hne, List.getLast?_reverse] at hc
  exact h c hc

/-- Trailing-whitespace stripping preserves collapsedness. -/
theorem stripR_noRun (l : PyStr) (h : NoRun l) : NoRun (stripR l) :=
  noRun_reverse _ (noRun_dropWhile _ (noRun_reverse _ h))

/-- After trailing-whitespace stripping the last character is not
whitespace. -/
theorem stripR_lastOk (l : PyStr) : LastOk (stripR l) := by
  unfold LastOk stripR
  rw [List.reverse_reverse]
  exact headOk_dropWhile _

/-- Leading-whitespace stripping is the identity when there is nothing to
strip. -/
theorem stripL_fix (l : PyStr) (h : HeadOk l) : stripL l = l := by
  cases l with
  | nil => rfl
  | cons c cs =>
    have := h c (by simp)
    rw [stripL, List.dropWhile_cons, if_neg (by simp [this])]

/-- Trailing-whitespace stripping is the identity when there is nothing to
strip. -/
theorem stripR_fix (l : PyStr) (h : LastOk l) : stripR l = l := by
  unfold stripR
  rw [show l.reverse.dropWhile pyWsB = stripL l.reverse from rfl]
  rw [stripL_fix l.reverse h, List.reverse_reverse]

/-- clean_text is the identity on cleaned strings. -/
theorem clean_fix (l : PyStr) (h1 : NoRun l) (h2 : HeadOk l) (h3 : LastOk l) :
    clean_text l = l := by
  unfold clean_text
  split_ifs with hl
  · exact hl.symm
  · rw [show collapseWs l = collapseAux false l from rfl, (collapseAux_fix l h1).1]
    rw [show stripWs l = stripR (stripL l) from rfl, stripL_fix l h2, stripR_fix l h3]

/-- The output of clean_text is cleaned: collapsed, with no leading and no
trailing whitespace. -/
theorem clean_props (l : PyStr) :
    NoRun (clean_text l) ∧ HeadOk (clean_text l) ∧ LastOk (clean_text l) := by
  unfold clean_text
  split_ifs with hl
  · exact ⟨noRun_nil, fun c hc => by simp at hc, fun c hc => by simp at hc⟩
  · refine ⟨?_, ?_, ?_⟩
    · exact stripR_noRun _ (noRun_dropWhile _ (collapseAux_props l).1)
    · exact stripR_headOk _ (headOk_dropWhile _)
    · exact stripR_lastOk _

/-- clean_text is idempotent. -/
theorem clean_text_idem (s : PyStr) : clean_text (clean_text s) = clean_text s :=
  clean_fix _ (clean_props s).1 (clean_props s).2.1 (clean_props s).2.2

/-- No letter is whitespace. -/
theorem pyWsB_alpha_false (c : Nat) (h1 : 65 ≤ c) (h2 : c ≤ 122) :
    pyWsB c = false := by
  rw [Bool.eq_false_iff]
  intro hc
  simp only [pyWsB, Bool.or_eq_true, beq_iff_eq, Bool.and_eq_true, decide_eq_true_eq] at hc
  omega

/-- Title-casing one character preserves its whitespace-ness. -/
theorem titleChar_pyWs (b : Bool) (c : Nat) : pyWsB (titleChar b c) = pyWsB c := by
  by_cases ha : isAlphaCp c = true
  · have hc : 65 ≤ c ∧ c ≤ 122 := by
      simp only [isAlphaCp, Bool.or_eq_true, Bool.and_eq_true, decide_eq_true_eq] at ha
      omega
    rw [pyWsB_alpha_false c hc.1 hc.2]
    unfold titleChar
    rw [if_pos ha]
    cases b
    · show pyWsB (asciiUpper c) = false
      unfold asciiUpper
      split_ifs with h
      · simp only [Bool.and_eq_true, decide_eq_true_eq] at h
        exact pyWsB_alpha_false _ (by omega) (by omega)
      · exact pyWsB_alpha_false c hc.1 hc.2
    · show pyWsB (asciiLower c) = false
      unfold asciiLower
      split_ifs with h
      · simp only [Bool.and_eq_true, decide_eq_true_eq] at h
        exact pyWsB_alpha_false _ (by omega) (by omega)
      · exact pyWsB_alpha_false c hc.1 hc.2
  · unfold titleChar
    rw [if_neg ha]

/-- Title-casing fixes whitespace characters. -/
theorem titleChar_ws_fix (b : Bool) (c : Nat) (h : pyWsB c = true) :
    titleChar b c = c := by
  unfold titleChar
  rw [if_neg]
  intro ha
  have hc : 65 ≤ c ∧ c ≤ 122 := by
    simp only [isAlphaCp, Bool.or_eq_true, Bool.and_eq_true, decide_eq_true_eq] at ha
    omega
  rw [pyWsB_alpha_false c hc.1 hc.2] at h
  cases h

/-- Letter-ness as an arithmetic range condition. -/
theorem isAlphaCp_true_iff (c : Nat) :
    isAlphaCp c = true ↔ (65 ≤ c ∧ c ≤ 90) ∨ (97 ≤ c ∧ c ≤ 122) := by
  simp [isAlphaCp]

/-- Title-casing one character preserves letter-ness. -/
theorem isAlpha_titleChar (b : Bool) (c : Nat) :
    isAlphaCp (titleChar b c) = isAlphaCp c := by
  unfold titleChar
  split_ifs with h1 hb
  · rw [h1]
    have hc := (isAlphaCp_true_iff c).mp h1
    unfold asciiLower
    split_ifs with h2
    · simp only [Bool.and_eq_true, decide_eq_true_eq] at h2
      rw [isAlphaCp_true_iff]
      omega
    · simp only [Bool.and_eq_true, decide_eq_true_eq, not_and, not_le] at h2
      rw [isAlphaCp_true_iff]
      omega
  · rw [h1]
    have hc := (isAlphaCp_true_iff c).mp h1
    unfold asciiUpper
    split_ifs with h2
    · simp only [Bool.and_eq_true, decide_eq_true_eq] at h2
      rw [isAlphaCp_true_iff]
      omega
    · simp only [Bool.and_eq_true, decide_eq_true_eq, not_and, not_le] at h2
      rw [isAlphaCp_true_iff]
      omega
  · rfl

/-- Title-casing one character twice with the same flag is the same as
once. -/
theorem titleChar_idem (b : Bool) (c : Nat) :
    titleChar b (titleChar b c) = titleChar b c := by
  unfold titleChar asciiLower asciiUpper
  split_ifs with h1 h2 h3 h4 h5 h6 h7 <;>
    simp only [isAlphaCp, Bool.or_eq_true, Bool.and_eq_true, decide_eq_true_eq] at * <;>
    omega

/-- Lower-casing absorbs title-casing of one character. -/
theorem asciiLower_titleChar (b : Bool) (c : Nat) :
    asciiLower (titleChar b c) = asciiLower c := by
  unfold titleChar asciiLower asciiUpper
  split_ifs with h1 h2 h3 h4 h5 h6 h7 <;>
    simp only [isAlphaCp, Bool.or_eq_true, Bool.and_eq_true, decide_eq_true_eq] at * <;>
    omega

/-- Lower-casing absorbs title-casing. -/
theorem pyLower_titleAux (l : PyStr) : ∀ b, pyLower (titleAux b l) = pyLower l := by
  induction l with
  | nil => intro b; rfl
  | cons c cs ih =>
    intro b
    show asciiLower (titleChar b c) :: pyLower (titleAux (isAlphaCp c) cs) =
      asciiLower c :: pyLower cs
    rw [asciiLower_titleChar, ih]

/-- Title-casing preserves length. -/
theorem titleAux_length (l : PyStr) : ∀ b, (titleAux b l).length = l.length := by
  induction l with
  | nil => intro b; rfl
  | cons c cs ih => intro b; simp [titleAux, ih]

/-- Title-casing is idempotent. -/
theorem titleAux_idem (l : PyStr) : ∀ b, titleAux b (titleAux b l) = titleAux b l := by
  induction l with
  | nil => intro b; rfl
  | cons c cs ih =>
    intro b
    show titleChar b (titleChar b c) :: titleAux (isAlphaCp (titleChar b c)) (titleAux (isAlphaCp c) cs) =
      titleChar b c :: titleAux (isAlphaCp c) cs
    rw [titleChar_idem, isAlpha_titleChar, ih]

/-- The head of a title-cased string is the title-cased head. -/
theorem titleAux_head? (l : PyStr) (b : Bool) :
    (titleAux b l).head? = l.head?.map (titleChar b) := by
  cases l <;> rfl

/-- Title-casing preserves collapsedness. -/
theorem titleAux_noRun (l : PyStr) (h : NoRun l) : ∀ b, NoRun (titleAux b l) := by
  induction l with
  | nil => intro b; exact noRun_nil
  | cons c cs ih =>
    intro b
    obtain ⟨htail, hws⟩ := noRun_of_cons c cs h
    show NoRun (titleChar b c :: titleAux (isAlphaCp c) cs)
    refine noRun_cons _ _ (ih htail (isAlphaCp c)) ?_ ?_
    · intro hw
      rw [titleChar_pyWs] at hw
      rw [titleChar_ws_fix b c hw]
      exact (hws hw).1
    · intro d hd
      rw [titleAux_head?] at hd
      rcases Option.map_eq_some'.mp hd with ⟨d0, hd0, rfl⟩
      rw [titleChar_pyWs, titleChar_pyWs]
      intro hc
      have hhead := (hws hc.1).2 d0 hd0
      rw [hc.2] at hhead
      cases hhead

/-- Title-casing preserves the absence of leading whitespace. -/
theorem titleAux_headOk (l : PyStr) (h : HeadOk l) (b : Bool) :
    HeadOk (titleAux b l) := by
  intro c hc
  rw [titleAux_head?] at hc
  rcases Option.map_eq_some'.mp hc with ⟨c0, hc0, rfl⟩
  rw [titleChar_pyWs]
  exact h c0 hc0

/-- The last character of a title-cased string is a title-cased character of
the original last character. -/
theorem titleAux_getLast (l : PyStr) :
    ∀ (b : Bool) (d : Nat), (titleAux b l).getLast? = some d →
      ∃ d0 b0, l.getLast? = some d0 ∧ d = titleChar b0 d0 := by
  induction l with
  | nil => intro b d hd; simp [titleAux] at hd
  | cons c cs ih =>
    intro b d hd
    cases cs with
    | nil =>
      refine ⟨c, b, by simp, ?_⟩
      simp only [titleAux, List.getLast?_singleton, Option.some.injEq] at hd
      exact hd.symm
    | cons e es =>
      rw [show titleAux b (c :: e :: es) =
            titleChar b c :: titleAux (isAlphaCp c) (e :: es) from rfl] at hd
      rw [show titleAux (isAlphaCp c) (e :: es) =
            titleChar (isAlphaCp c) e :: titleAux (isAlphaCp e) es from rfl] at hd
      rw [List.getLast?_cons_cons] at hd
      rw [show (titleChar (isAlphaCp c) e :: titleAux (isAlphaCp e) es) =
            titleAux (isAlphaCp c) (e :: es) from rfl] at hd
      obtain ⟨d0, b0, hd0, rfl⟩ := ih (isAlphaCp c) d hd
      exact ⟨d0, b0, by rw [← hd0, List.getLast?_cons_cons], rfl⟩

/-- Title-casing preserves the absence of trailing whitespace. -/
theorem titleAux_lastOk (l : PyStr) (h : LastOk l) (b : Bool) :
    LastOk (titleAux b l) := by
  intro c hc
  rw [List.head?_reverse] at hc
  obtain ⟨d0, b0, hd0, rfl⟩ := titleAux_getLast l b c hc
  rw [titleChar_pyWs]
  exact h d0 (by rwa [List.head?_reverse])

/-- A string that lower-cases to "unknown" contains no whitespace. -/
theorem allNonWs_of_pyLower_unknown (s : PyStr) (h : pyLower s = str "unknown") :
    ∀ c ∈ s, pyWsB c = false := by
  intro c hc
  have hm : asciiLower c ∈ pyLower s := List.mem_map_of_mem _ hc
  rw [h, show str "unknown" = [117, 110, 107, 110, 111, 119, 110] from by decide] at hm
  have hb : 97 ≤ asciiLower c ∧ asciiLower c ≤ 122 := by
    simp only [List.mem_cons, List.not_mem_nil, or_false] at hm
    rcases hm with h | h | h | h | h | h | h <;> rw [h] <;> omega
  unfold asciiLower at hb
  split_ifs at hb with h2
  · simp only [Bool.and_eq_true, decide_eq_true_eq] at h2
    exact pyWsB_alpha_false c h2.1 (by omega)
  · exact pyWsB_alpha_false c (by omega) hb.2

/-- A string with no whitespace at all is untouched by clean_text. -/
theorem clean_of_allNonWs (s : PyStr) (h : ∀ c ∈ s, pyWsB c = false) :
    clean_text s = s := by
  have hnr : NoRun s := by
    refine ⟨fun c hc hw => absurd hw (by simp [h c hc]), ?_⟩
    induction s with
    | nil => exact List.chain'_nil
    | cons c cs ih =>
      rw [List.chain'_cons']
      refine ⟨fun d _ => fun hc => ?_, ih (fun x hx => h x (List.mem_cons_of_mem _ hx))⟩
      rw [h c (List.mem_cons_self _ _)] at hc
      cases hc.1
  have hho : HeadOk s := by
    intro c hc
    exact h c (List.mem_of_mem_head? hc)
  have hlo : LastOk s := by
    intro c hc
    rw [List.head?_reverse] at hc
    exact h c (List.mem_reverse.mp (List.mem_of_mem_head? (by rwa [List.head?_reverse])))
  exact clean_fix s hnr hho hlo

/-- C10 (amended): clean_text is idempotent, and "Uncategorized" is a fixed
point of normalize_category; normalize_category is idempotent on every input
that either triggers the Uncategorized guard or cleans to a non-empty string
that is not case-insensitively "unknown" — but not in general, per the
counterexample. -/
theorem C10_normalizers_amended :
    (∀ s, clean_text (clean_text s) = clean_text s) ∧
    normalize_category (str "Uncategorized") = str "Uncategorized" ∧
    (∀ s : PyStr, s = [] ∨ pyLower s = str "unknown" →
      normalize_category (normalize_category s) = normalize_category s) ∧
    (∀ s : PyStr, clean_text s ≠ [] → pyLower (clean_text s) ≠ str "unknown" →
      normalize_category (normalize_category s) = normalize_category s) := by
  refine ⟨clean_text_idem, by decide, ?_, ?_⟩
  · intro s h
    have h1 : normalize_category s = str "Uncategorized" := by
      unfold normalize_category
      rw [if_pos h]
    rw [h1]
    decide
  · intro s h1 h2
    have hs_ne : s ≠ [] := by
      intro he
      rw [he] at h1
      exact h1 rfl
    have hs_unk : pyLower s ≠ str "unknown" := by
      intro he
      have := clean_of_allNonWs s (allNonWs_of_pyLower_unknown s he)
      rw [this] at h2
      exact h2 he
    have hguard : ¬(s = [] ∨ pyLower s = str "unknown") := by
      rintro (h | h)
      · exact hs_ne h
      · exact hs_unk h
    have hn1 : normalize_category s = pyTitle (clean_text s) := by
      unfold normalize_category
      rw [if_neg hguard]
    set t := pyTitle (clean_text s) with ht_def
    have hprops := clean_props s
    have htNR : NoRun t := titleAux_noRun _ hprops.1 false
    have htHO : HeadOk t := titleAux_headOk _ hprops.2.1 false
    have htLO : LastOk t := titleAux_lastOk _ hprops.2.2 false
    have ht_ne : t ≠ [] := by
      intro he
      have := titleAux_length (clean_text s) false
      rw [ht_def] at he
      rw [show pyTitle (clean_text s) = titleAux false (clean_text s) from rfl] at he
      rw [he] at this
      exact h1 (List.eq_nil_of_length_eq_zero this.symm)
    have ht_unk : pyLower t ≠ str "unknown" := by
      rw [ht_def, show pyTitle (clean_text s) = titleAux false (clean_text s) from rfl,
        pyLower_titleAux]
      exact h2
    have htguard : ¬(t = [] ∨ pyLower t = str "unknown") := by
      rintro (h | h)
      · exact ht_ne h
      · exact ht_unk h
    have hn2 : normalize_category t = pyTitle (clean_text t) := by
      unfold normalize_category
      rw [if_neg htguard]
    rw [hn1, hn2, clean_fix t htNR htHO htLO, ht_def]
    exact titleAux_idem (clean_text s) false

/-- C10 witness: normalize_category is idempotent at the demo category
"poetry". -/
theorem C10_witness :
    normalize_category (normalize_category (str "poetry")) =
      normalize_category (str "poetry") :=
  C10_normalizers_amended.2.2.2 (str "poetry") (by decide) (by decide)

end Pipeline
